import Mathlib

/-!
# Verification of `BundleLoader` (Firestore/core/src/bundle/bundle_loader.cc)

A shallow embedding of the bundle-loading state machine:
`BundleLoader::AddElement`, `BundleLoader::ApplyChanges` and
`BundleLoader::GetQueryDocumentMapping`, translated from the C++ source.

Modelling choices:
* Document keys, bundle ids and query names are `String`;
  document contents, serialized query targets and read timestamps are
  opaque to the loader and are modelled as `Nat`.
* `documents_` is an immutable sorted map in the source; `insert`
  replaces the value stored under an existing key.  It is modelled as an
  association list with replace-on-insert semantics (`insertOverwrite`);
  `size()` is the number of entries.
* `documents_metadata_` is a `std::unordered_map`; its member `insert`
  does *not* replace the value stored under an existing key.  It is
  modelled with `insertIfAbsent`.
* `bytes_loaded_` and `byte_size` are `uint64_t`; addition is taken
  modulo `2 ^ 64`.
* The `HARD_ASSERT` on a `Metadata`-kind element is modelled as a
  distinguished `fatalAssertion` outcome of `AddElement`.
* The persistence callback is a parameter: `ApplyBundledDocuments` is an
  arbitrary function producing the changed-document map, and the calls
  issued to the callback interface are recorded as an ordered trace.
-/

set_option autoImplicit false

namespace BundleSpec

/-- Key of the `SortedMap`s / `DocumentKeySet`: a Firestore document key. -/
abbrev DocKey := String

/-- A `NamedQuery` bundle element: query name plus its serialized target
(the target is opaque to the loader). -/
structure NamedQuery where
  query_name : String
  bundled_query : Nat
  deriving Repr, DecidableEq

/-- A `BundledDocumentMetadata` element: document key, read time,
existence flag, and the names of the queries this document satisfies. -/
structure BundledDocumentMetadata where
  key : DocKey
  read_time : Nat
  doc_exists : Bool
  queries : List String
  deriving Repr, DecidableEq

/-- A `BundleDocument` element: document key plus the document contents
(opaque to the loader). -/
structure BundleDocument where
  key : DocKey
  document : Nat
  deriving Repr, DecidableEq

/-- The four element kinds of `BundleElementType`. -/
inductive BundleElementType where
  | Metadata
  | NamedQuery
  | DocumentMetadata
  | Document
  deriving Repr, DecidableEq

/-- A `BundleElement`: the tagged variant fed to the loader.  The payload
of a `Metadata` element is irrelevant here because the accumulator
asserts on it before looking at it. -/
inductive BundleElement where
  | metadata
  | namedQuery (q : NamedQuery)
  | documentMetadata (m : BundledDocumentMetadata)
  | document (d : BundleDocument)
  deriving Repr, DecidableEq

/-- `BundleElement::ElementType()`. -/
def BundleElement.elementType : BundleElement → BundleElementType
  | .metadata => .Metadata
  | .namedQuery _ => .NamedQuery
  | .documentMetadata _ => .DocumentMetadata
  | .document _ => .Document

/-- `MaybeDocument`: either a real document (contents) or a `NoDocument`
tombstone (key, read time, has-committed-mutations flag). -/
inductive MaybeDocument where
  | document (contents : Nat)
  | noDocument (key : DocKey) (read_time : Nat) (has_committed_mutations : Bool)
  deriving Repr, DecidableEq

/-- `BundleMetadata`: bundle id, declared total document count, declared
total byte size. -/
structure BundleMetadata where
  bundle_id : String
  total_documents : Nat
  total_bytes : Nat
  deriving Repr, DecidableEq

/-- `TaskState` of a `LoadBundleTaskProgress`. -/
inductive TaskState where
  | Error
  | Running
  | Success
  deriving Repr, DecidableEq

/-- `LoadBundleTaskProgress`. -/
structure LoadBundleTaskProgress where
  documents_loaded : Nat
  total_documents : Nat
  bytes_loaded : Nat
  total_bytes : Nat
  state : TaskState
  deriving Repr, DecidableEq

/-! ## Association-list maps

`documents_` (an immutable sorted map whose `insert` replaces the value
under an existing key) and `documents_metadata_` (a `std::unordered_map`
whose `insert` is a no-op for an existing key) are modelled as
association lists with exactly those two insertion semantics. -/

/-- First-match lookup in an association list. -/
def lookupKey {α : Type} : List (String × α) → String → Option α
  | [], _ => none
  | (k', v) :: rest, k => if k' = k then some v else lookupKey rest k

/-- Lookup with a default: `operator[]`-style read. -/
def lookupD {α : Type} (r : List (String × α)) (k : String) (d : α) : α :=
  (lookupKey r k).getD d

/-- Whether the map has an entry for `k`. -/
def containsKey {α : Type} (r : List (String × α)) (k : String) : Bool :=
  (lookupKey r k).isSome

/-- Insert that replaces the value stored under an existing key
(the semantics of the immutable `SortedMap::insert` used for
`documents_`). -/
def insertOverwrite {α : Type} : List (String × α) → String → α → List (String × α)
  | [], k, v => [(k, v)]
  | (k', v') :: rest, k, v =>
    if k' = k then (k, v) :: rest else (k', v') :: insertOverwrite rest k v

/-- Insert that keeps the existing entry for the key if there is one
(the semantics of `std::unordered_map::insert` used for
`documents_metadata_`). -/
def insertIfAbsent {α : Type} (r : List (String × α)) (k : String) (v : α) :
    List (String × α) :=
  if containsKey r k then r else r ++ [(k, v)]

/-- `DocumentKeySet::insert`: an immutable sorted set of document keys,
modelled as a sorted duplicate-free list. -/
def insertSorted : List DocKey → DocKey → List DocKey
  | [], k => [k]
  | x :: rest, k =>
    if k = x then x :: rest
    else if k < x then k :: x :: rest
    else x :: insertSorted rest k

/-! ## Loader state -/

/-- The mutable state of a `BundleLoader`. -/
structure BundleLoader where
  metadata : BundleMetadata
  queries : List NamedQuery
  documents_metadata : List (DocKey × BundledDocumentMetadata)
  documents : List (DocKey × MaybeDocument)
  current_document : Option DocKey
  bytes_loaded : Nat
  deriving Repr, DecidableEq

/-- A freshly constructed loader for the given bundle metadata. -/
def BundleLoader.init (m : BundleMetadata) : BundleLoader :=
  { metadata := m
    queries := []
    documents_metadata := []
    documents := []
    current_document := none
    bytes_loaded := 0 }

/-- `2 ^ 64`, the modulus of the `uint64_t` byte counter. -/
def UINT64_MOD : Nat := 2 ^ 64

/-- The only `Error` code this translation of the source constructs:
`Error::kErrorInvalidArgument`. -/
inductive ErrorCode where
  | InvalidArgument
  deriving Repr, DecidableEq

/-- Outcome of `AddElement`:
`StatusOr<absl::optional<LoadBundleTaskProgress>>`, plus a distinguished
outcome for the `HARD_ASSERT` firing. -/
inductive AddElementResult where
  | fatalAssertion (msg : String)
  | error (code : ErrorCode) (msg : String)
  | ok (progress : Option LoadBundleTaskProgress)
  deriving Repr, DecidableEq

/-- The common tail of `AddElement`: add `byte_size` to the byte counter
and return a progress snapshot exactly when the document count grew. -/
def finishAdd (l : BundleLoader) (before_count : Nat) (byte_size : Nat) :
    AddElementResult × BundleLoader :=
  let l := { l with bytes_loaded := (l.bytes_loaded + byte_size) % UINT64_MOD }
  if before_count = l.documents.length then
    (.ok none, l)
  else
    (.ok (some
      { documents_loaded := l.documents.length
        total_documents := l.metadata.total_documents
        bytes_loaded := l.bytes_loaded
        total_bytes := l.metadata.total_bytes
        state := .Running }), l)

/-- `BundleLoader::AddElement`, translated from bundle_loader.cc lines
39–83.  Returns the result together with the loader state after the
call; on the invalid-argument path and on the fatal-assertion path the
state is returned unchanged, as the source returns before mutating. -/
def AddElement (l : BundleLoader) (element : BundleElement) (byte_size : Nat) :
    AddElementResult × BundleLoader :=
  match element with
  | .metadata => (.fatalAssertion "Unexpected bundle metadata element.", l)
  | .namedQuery q =>
    finishAdd { l with queries := l.queries ++ [q] } l.documents.length byte_size
  | .documentMetadata document_metadata =>
    let l1 := { l with
      current_document := some document_metadata.key
      documents_metadata :=
        insertIfAbsent l.documents_metadata document_metadata.key document_metadata }
    let l2 :=
      if document_metadata.doc_exists then l1
      else { l1 with
        documents := insertOverwrite l1.documents document_metadata.key
          (.noDocument document_metadata.key document_metadata.read_time false)
        current_document := none }
    finishAdd l2 l.documents.length byte_size
  | .document document =>
    if l.current_document = some document.key then
      finishAdd
        { l with
          documents := insertOverwrite l.documents document.key (.document document.document)
          current_document := none }
        l.documents.length byte_size
    else
      (.error .InvalidArgument
        "The document being added does not match the stored metadata.", l)

/-! ## Reconciliation -/

/-- The body of the inner loop of `GetQueryDocumentMapping`:
`auto inserted = result[query].insert(metadata.key());
result[query] = std::move(inserted);` — `operator[]` default-constructs
an empty key set for a name that is not yet a key. -/
def addDocToQuery (r : List (String × List DocKey)) (k : DocKey) (query : String) :
    List (String × List DocKey) :=
  insertOverwrite r query (insertSorted (lookupD r query []) k)

/-- The body of the second loop of `GetQueryDocumentMapping`: add this
metadata entry's key to the set of every query name it lists. -/
def addMetadataQueries (r : List (String × List DocKey))
    (m : BundledDocumentMetadata) : List (String × List DocKey) :=
  m.queries.foldl (fun r query => addDocToQuery r m.key query) r

/-- The first loop of `GetQueryDocumentMapping`: seed an empty key set
for every received named query (`result.insert({name, DocumentKeySet{}})`
keeps an existing entry). -/
def seedQueryNames (queries : List NamedQuery) (r : List (String × List DocKey)) :
    List (String × List DocKey) :=
  queries.foldl (fun r named_query => insertIfAbsent r named_query.query_name []) r

/-- `BundleLoader::GetQueryDocumentMapping`, translated from
bundle_loader.cc lines 111–126: seed an empty key set for every received
named query, then for every metadata entry add its key to the set of
every query name it lists. -/
def GetQueryDocumentMapping (l : BundleLoader) : List (String × List DocKey) :=
  l.documents_metadata.foldl
    (fun r doc_metadata => addMetadataQueries r doc_metadata.2)
    (seedQueryNames l.queries [])

/-- One recorded call on the `BundleCallback` interface. -/
inductive CallbackCall where
  | applyBundledDocuments (docs : List (DocKey × MaybeDocument)) (bundle_id : String)
  | saveNamedQuery (q : NamedQuery) (matching_keys : List DocKey)
  | saveBundle (m : BundleMetadata)
  deriving Repr, DecidableEq

/-- The changed-document map returned by the persistence layer. -/
abbrev MaybeDocumentMap := List (DocKey × MaybeDocument)

/-- `BundleLoader::ApplyChanges`, translated from bundle_loader.cc lines
85–109.  `apply_cb` stands for the external
`BundleCallback::ApplyBundledDocuments` and supplies the
changed-document map; the ordered list of callback invocations is
returned alongside the result. -/
def ApplyChanges (apply_cb : List (DocKey × MaybeDocument) → String → MaybeDocumentMap)
    (l : BundleLoader) : Except (ErrorCode × String) MaybeDocumentMap × List CallbackCall :=
  if l.current_document ≠ none then
    (.error (.InvalidArgument,
      "Bundled documents end with a document metadata element instead of a document."),
     [])
  else if l.metadata.total_documents ≠ l.documents.length then
    (.error (.InvalidArgument,
      "Loaded documents count is not the same as in metadata."), [])
  else
    let changes := apply_cb l.documents l.metadata.bundle_id
    let query_document_map := GetQueryDocumentMapping l
    let query_calls := l.queries.map
      (fun named_query =>
        CallbackCall.saveNamedQuery named_query
          (lookupD query_document_map named_query.query_name []))
    (.ok changes,
     CallbackCall.applyBundledDocuments l.documents l.metadata.bundle_id ::
       query_calls ++ [CallbackCall.saveBundle l.metadata])

/-- Feed a list of `(element, byte_size)` pairs to the loader; `none`
when some call does not return `ok`. -/
def AddAll (l : BundleLoader) : List (BundleElement × Nat) → Option BundleLoader
  | [] => some l
  | (e, b) :: rest =>
    match AddElement l e b with
    | (.ok _, l') => AddAll l' rest
    | _ => none

/-! ## Map lemmas -/

theorem lookupKey_insertOverwrite {α : Type} (r : List (String × α)) (k k' : String)
    (v : α) :
    lookupKey (insertOverwrite r k v) k' = if k' = k then some v else lookupKey r k' := by
  induction r with
  | nil =>
    rcases eq_or_ne k' k with h | h
    · subst h; simp [insertOverwrite, lookupKey]
    · simp [insertOverwrite, lookupKey, h, Ne.symm h]
  | cons p rest ih =>
    obtain ⟨k₁, v₁⟩ := p
    rcases eq_or_ne k₁ k with h1 | h1
    · subst h1
      rcases eq_or_ne k' k₁ with h2 | h2
      · subst h2; simp [insertOverwrite, lookupKey]
      · simp [insertOverwrite, lookupKey, h2, Ne.symm h2]
    · rcases eq_or_ne k₁ k' with h2 | h2
      · subst h2
        simp [insertOverwrite, lookupKey, h1, Ne.symm h1]
      · simp [insertOverwrite, lookupKey, h1, h2, ih, Ne.symm h2]

theorem length_insertOverwrite {α : Type} (r : List (String × α)) (k : String) (v : α) :
    (insertOverwrite r k v).length =
      if containsKey r k then r.length else r.length + 1 := by
  induction r with
  | nil => simp [insertOverwrite, containsKey, lookupKey]
  | cons p rest ih =>
    obtain ⟨k₁, v₁⟩ := p
    rcases eq_or_ne k₁ k with h1 | h1
    · subst h1; simp [insertOverwrite, containsKey, lookupKey]
    · simp only [insertOverwrite, if_neg h1, List.length_cons, containsKey, lookupKey, ih]
      by_cases h2 : (lookupKey rest k).isSome = true <;> simp [containsKey, h2]

theorem containsKey_insertOverwrite {α : Type} (r : List (String × α)) (k k' : String)
    (v : α) :
    containsKey (insertOverwrite r k v) k' = (k' = k || containsKey r k') := by
  rcases eq_or_ne k' k with h | h <;>
    simp [containsKey, lookupKey_insertOverwrite, h]

theorem lookupKey_append {α : Type} (r s : List (String × α)) (k : String) :
    lookupKey (r ++ s) k = ((lookupKey r k).map some).getD (lookupKey s k) := by
  induction r with
  | nil => simp [lookupKey]
  | cons p rest ih =>
    obtain ⟨k₁, v₁⟩ := p
    by_cases h : k₁ = k <;> simp [lookupKey, h, ih]

theorem insertIfAbsent_of_contains {α : Type} (r : List (String × α)) (k : String)
    (v : α) (h : containsKey r k = true) : insertIfAbsent r k v = r := by
  simp [insertIfAbsent, h]

theorem lookupKey_insertIfAbsent_self {α : Type} (r : List (String × α)) (k : String)
    (v : α) (h : containsKey r k = false) :
    lookupKey (insertIfAbsent r k v) k = some v := by
  have hn : lookupKey r k = none := by
    simpa [containsKey, Option.isNone_iff_eq_none] using h
  simp [insertIfAbsent, containsKey, hn, lookupKey_append, lookupKey]

theorem lookupKey_insertIfAbsent_ne {α : Type} (r : List (String × α)) (k k' : String)
    (v : α) (h : k' ≠ k) :
    lookupKey (insertIfAbsent r k v) k' = lookupKey r k' := by
  by_cases hc : containsKey r k
  · simp [insertIfAbsent, hc]
  · simp only [insertIfAbsent, hc, if_false, Bool.false_eq_true, lookupKey_append]
    cases hl : lookupKey r k' with
    | none => simp [lookupKey, Ne.symm h]
    | some w => simp

theorem containsKey_insertIfAbsent {α : Type} (r : List (String × α)) (k k' : String)
    (v : α) :
    containsKey (insertIfAbsent r k v) k' = (k' = k || containsKey r k') := by
  rcases eq_or_ne k' k with h | h
  · subst h
    cases hc : containsKey r k' with
    | true => simp [insertIfAbsent_of_contains r k' v hc, hc]
    | false => simp [containsKey, lookupKey_insertIfAbsent_self r k' v hc]
  · simp [containsKey, lookupKey_insertIfAbsent_ne r k k' v h, h]

theorem mem_insertSorted (s : List DocKey) (k a : DocKey) :
    a ∈ insertSorted s k ↔ a = k ∨ a ∈ s := by
  induction s with
  | nil => simp [insertSorted]
  | cons x rest ih =>
    rcases eq_or_ne k x with h1 | h1
    · subst h1
      have he : insertSorted (k :: rest) k = k :: rest := by simp [insertSorted]
      rw [he]
      simp only [List.mem_cons]
      tauto
    · by_cases h2 : k < x
      · have he : insertSorted (x :: rest) k = k :: x :: rest := by
          simp [insertSorted, h1, h2]
        rw [he]
        simp [List.mem_cons]
      · have he : insertSorted (x :: rest) k = x :: insertSorted rest k := by
          simp [insertSorted, h1, h2]
        rw [he]
        simp only [List.mem_cons, ih]
        tauto

/-! ## `AddElement` characterization lemmas -/

theorem finishAdd_snd (l : BundleLoader) (c b : Nat) :
    (finishAdd l c b).2 =
      { l with bytes_loaded := (l.bytes_loaded + b) % UINT64_MOD } := by
  simp only [finishAdd]
  split <;> rfl

theorem finishAdd_fst (l : BundleLoader) (c b : Nat) :
    (finishAdd l c b).1 =
      if c = l.documents.length then .ok none
      else .ok (some
        { documents_loaded := l.documents.length
          total_documents := l.metadata.total_documents
          bytes_loaded := (l.bytes_loaded + b) % UINT64_MOD
          total_bytes := l.metadata.total_bytes
          state := .Running }) := by
  simp only [finishAdd]
  split <;> rfl

theorem AddElement_metadata_eq (l : BundleLoader) (b : Nat) :
    AddElement l .metadata b =
      (.fatalAssertion "Unexpected bundle metadata element.", l) := rfl

theorem AddElement_namedQuery_eq (l : BundleLoader) (q : NamedQuery) (b : Nat) :
    AddElement l (.namedQuery q) b =
      (.ok none,
       { l with queries := l.queries ++ [q]
                bytes_loaded := (l.bytes_loaded + b) % UINT64_MOD }) := by
  simp [AddElement, finishAdd]

theorem AddElement_documentMetadata_snd (l : BundleLoader)
    (m : BundledDocumentMetadata) (b : Nat) :
    (AddElement l (.documentMetadata m) b).2 =
      if m.doc_exists then
        { l with current_document := some m.key
                 documents_metadata := insertIfAbsent l.documents_metadata m.key m
                 bytes_loaded := (l.bytes_loaded + b) % UINT64_MOD }
      else
        { l with current_document := none
                 documents_metadata := insertIfAbsent l.documents_metadata m.key m
                 documents := insertOverwrite l.documents m.key
                   (.noDocument m.key m.read_time false)
                 bytes_loaded := (l.bytes_loaded + b) % UINT64_MOD } := by
  cases hm : m.doc_exists <;> simp [AddElement, hm, finishAdd_snd]

theorem AddElement_document_mismatch (l : BundleLoader) (d : BundleDocument)
    (b : Nat) (h : l.current_document ≠ some d.key) :
    AddElement l (.document d) b =
      (.error .InvalidArgument
        "The document being added does not match the stored metadata.", l) := by
  simp [AddElement, h]

theorem AddElement_document_match (l : BundleLoader) (d : BundleDocument)
    (b : Nat) (h : l.current_document = some d.key) :
    AddElement l (.document d) b =
      finishAdd
        { l with documents := insertOverwrite l.documents d.key (.document d.document)
                 current_document := none }
        l.documents.length b := by
  simp [AddElement, h]

/-- Every `AddElement` call either fires the assertion, returns the
invalid-argument error with the state untouched, or runs `finishAdd` on
an intermediate state whose byte counter and bundle metadata are those
of the input and whose document map is the input's, possibly with one
insertion. -/
theorem AddElement_cases (l : BundleLoader) (e : BundleElement) (b : Nat) :
    (e.elementType = .Metadata ∧
      AddElement l e b = (.fatalAssertion "Unexpected bundle metadata element.", l)) ∨
    (∃ c s, AddElement l e b = (.error c s, l)) ∨
    (e.elementType ≠ .Metadata ∧
      ∃ l₁, AddElement l e b = finishAdd l₁ l.documents.length b ∧
      l₁.bytes_loaded = l.bytes_loaded ∧ l₁.metadata = l.metadata ∧
      (l₁.documents = l.documents ∨
        ∃ k v, l₁.documents = insertOverwrite l.documents k v)) := by
  cases e with
  | metadata => exact Or.inl ⟨rfl, rfl⟩
  | namedQuery q =>
    exact Or.inr (Or.inr ⟨(fun h => nomatch h), _, rfl, rfl, rfl, Or.inl rfl⟩)
  | documentMetadata m =>
    refine Or.inr (Or.inr ⟨(fun h => nomatch h), ?_⟩)
    cases hm : m.doc_exists
    · refine ⟨{ l with
                current_document := none,
                documents_metadata := insertIfAbsent l.documents_metadata m.key m,
                documents := insertOverwrite l.documents m.key
                  (.noDocument m.key m.read_time false) },
        ?_, rfl, rfl, Or.inr ⟨m.key, _, rfl⟩⟩
      simp [AddElement, hm]
    · refine ⟨{ l with
                current_document := some m.key,
                documents_metadata := insertIfAbsent l.documents_metadata m.key m },
        ?_, rfl, rfl, Or.inl rfl⟩
      simp [AddElement, hm]
  | document d =>
    by_cases hc : l.current_document = some d.key
    · refine Or.inr (Or.inr ⟨(fun h => nomatch h), { l with
          documents := insertOverwrite l.documents d.key (.document d.document),
          current_document := none },
        ?_, rfl, rfl, Or.inr ⟨d.key, _, rfl⟩⟩)
      simp [AddElement, hc]
    · exact Or.inr (Or.inl ⟨_, _, AddElement_document_mismatch l d b hc⟩)

theorem AddElement_ok_bytes (l : BundleLoader) (e : BundleElement) (b : Nat)
    (p : Option LoadBundleTaskProgress) (h : (AddElement l e b).1 = .ok p) :
    (AddElement l e b).2.bytes_loaded = (l.bytes_loaded + b) % UINT64_MOD := by
  cases e with
  | metadata => simp [AddElement_metadata_eq] at h
  | namedQuery q => simp [AddElement_namedQuery_eq]
  | documentMetadata m => simp [AddElement_documentMetadata_snd]; split <;> rfl
  | document d =>
    by_cases hc : l.current_document = some d.key
    · rw [AddElement_document_match l d b hc, finishAdd_snd]
    · rw [AddElement_document_mismatch l d b hc] at h
      exact absurd h (by simp)

theorem finishAdd_fst_isOk (l : BundleLoader) (c b : Nat) :
    ∃ p, (finishAdd l c b).1 = .ok p := by
  rw [finishAdd_fst]
  split <;> exact ⟨_, rfl⟩

theorem UINT64_MOD_pos : 0 < UINT64_MOD := by
  simp [UINT64_MOD]

/-- Feeding a list of elements whose calls all return `ok` adds the sum
of the byte sizes to the byte counter, modulo `2 ^ 64`. -/
theorem AddAll_bytes (es : List (BundleElement × Nat)) :
    ∀ l l' : BundleLoader, AddAll l es = some l' → l.bytes_loaded < UINT64_MOD →
    l'.bytes_loaded = (l.bytes_loaded + (es.map Prod.snd).sum) % UINT64_MOD := by
  induction es with
  | nil =>
    intro l l' h hb
    simp only [AddAll, Option.some.injEq] at h
    subst h
    simp [Nat.mod_eq_of_lt hb]
  | cons eb rest ih =>
    intro l l' h hb
    obtain ⟨e, b⟩ := eb
    simp only [AddAll] at h
    rcases hr : AddElement l e b with ⟨r, l₁⟩
    rw [hr] at h
    cases r with
    | fatalAssertion s => simp at h
    | error c s => simp at h
    | ok p =>
      simp only at h
      have hb1 : l₁.bytes_loaded = (l.bytes_loaded + b) % UINT64_MOD := by
        have hfst : (AddElement l e b).1 = .ok p := by rw [hr]
        have := AddElement_ok_bytes l e b p hfst
        rwa [hr] at this
      have hlt : l₁.bytes_loaded < UINT64_MOD := by
        rw [hb1]; exact Nat.mod_lt _ UINT64_MOD_pos
      have hrec := ih l₁ l' h hlt
      rw [hrec, hb1, Nat.mod_add_mod, List.map_cons, List.sum_cons,
        Nat.add_assoc]

/-! ## `GetQueryDocumentMapping` lemmas -/

theorem lookupD_addDocToQuery (r : List (String × List DocKey)) (k : DocKey)
    (q q' : String) :
    lookupD (addDocToQuery r k q) q' [] =
      if q' = q then insertSorted (lookupD r q []) k else lookupD r q' [] := by
  simp only [addDocToQuery, lookupD, lookupKey_insertOverwrite]
  rcases eq_or_ne q' q with h | h <;> simp [h]

theorem containsKey_addDocToQuery (r : List (String × List DocKey)) (k : DocKey)
    (q q' : String) :
    containsKey (addDocToQuery r k q) q' = (q' = q || containsKey r q') := by
  simp [addDocToQuery, containsKey_insertOverwrite]

theorem mem_lookupD_foldl_addDoc (qs : List String) (k : DocKey) (q : String)
    (a : DocKey) : ∀ r : List (String × List DocKey),
    (a ∈ lookupD (qs.foldl (fun r query => addDocToQuery r k query) r) q [] ↔
      a ∈ lookupD r q [] ∨ (q ∈ qs ∧ a = k)) := by
  induction qs with
  | nil => intro r; simp
  | cons q₀ rest ih =>
    intro r
    rw [List.foldl_cons, ih, lookupD_addDocToQuery]
    rcases eq_or_ne q q₀ with h | h
    · subst h
      rw [if_pos rfl]
      simp only [mem_insertSorted, List.mem_cons]
      tauto
    · rw [if_neg h]
      simp only [List.mem_cons, h, false_or]

theorem containsKey_foldl_addDoc (qs : List String) (k : DocKey) (q : String) :
    ∀ r : List (String × List DocKey),
    (containsKey (qs.foldl (fun r query => addDocToQuery r k query) r) q = true ↔
      q ∈ qs ∨ containsKey r q = true) := by
  induction qs with
  | nil => intro r; simp
  | cons q₀ rest ih =>
    intro r
    simp only [List.foldl_cons, ih, containsKey_addDocToQuery, List.mem_cons,
      Bool.or_eq_true, decide_eq_true_eq]
    tauto

theorem mem_lookupD_addMetadataQueries (r : List (String × List DocKey))
    (m : BundledDocumentMetadata) (q : String) (a : DocKey) :
    a ∈ lookupD (addMetadataQueries r m) q [] ↔
      a ∈ lookupD r q [] ∨ (q ∈ m.queries ∧ a = m.key) :=
  mem_lookupD_foldl_addDoc m.queries m.key q a r

theorem containsKey_addMetadataQueries (r : List (String × List DocKey))
    (m : BundledDocumentMetadata) (q : String) :
    containsKey (addMetadataQueries r m) q = true ↔
      q ∈ m.queries ∨ containsKey r q = true :=
  containsKey_foldl_addDoc m.queries m.key q r

theorem mem_lookupD_foldl_meta (entries : List (DocKey × BundledDocumentMetadata))
    (q : String) (a : DocKey) : ∀ r : List (String × List DocKey),
    (a ∈ lookupD (entries.foldl (fun r p => addMetadataQueries r p.2) r) q [] ↔
      a ∈ lookupD r q [] ∨ ∃ p ∈ entries, q ∈ p.2.queries ∧ a = p.2.key) := by
  induction entries with
  | nil => intro r; simp
  | cons p₀ rest ih =>
    intro r
    simp only [List.foldl_cons, ih, mem_lookupD_addMetadataQueries]
    constructor
    · rintro ((h | ⟨hq, ha⟩) | ⟨p, hp, hq, ha⟩)
      · exact Or.inl h
      · exact Or.inr ⟨p₀, List.mem_cons_self _ _, hq, ha⟩
      · exact Or.inr ⟨p, List.mem_cons_of_mem _ hp, hq, ha⟩
    · rintro (h | ⟨p, hp, hq, ha⟩)
      · exact Or.inl (Or.inl h)
      · rcases List.mem_cons.mp hp with rfl | hp'
        · exact Or.inl (Or.inr ⟨hq, ha⟩)
        · exact Or.inr ⟨p, hp', hq, ha⟩

theorem containsKey_foldl_meta (entries : List (DocKey × BundledDocumentMetadata))
    (q : String) : ∀ r : List (String × List DocKey),
    (containsKey (entries.foldl (fun r p => addMetadataQueries r p.2) r) q = true ↔
      containsKey r q = true ∨ ∃ p ∈ entries, q ∈ p.2.queries) := by
  induction entries with
  | nil => intro r; simp
  | cons p₀ rest ih =>
    intro r
    simp only [List.foldl_cons, ih, containsKey_addMetadataQueries]
    constructor
    · rintro ((hq | h) | ⟨p, hp, hq⟩)
      · exact Or.inr ⟨p₀, List.mem_cons_self _ _, hq⟩
      · exact Or.inl h
      · exact Or.inr ⟨p, List.mem_cons_of_mem _ hp, hq⟩
    · rintro (h | ⟨p, hp, hq⟩)
      · exact Or.inl (Or.inr h)
      · rcases List.mem_cons.mp hp with rfl | hp'
        · exact Or.inl (Or.inl hq)
        · exact Or.inr ⟨p, hp', hq⟩

theorem lookupD_seedQueryNames (qs : List NamedQuery) (q : String) :
    ∀ r : List (String × List DocKey),
    (∀ q', lookupD r q' [] = []) → lookupD (seedQueryNames qs r) q [] = [] := by
  induction qs with
  | nil => intro r hr; exact hr q
  | cons nq rest ih =>
    intro r hr
    simp only [seedQueryNames, List.foldl_cons]
    refine ih _ ?_
    intro q'
    by_cases hc : containsKey r nq.query_name
    · rw [insertIfAbsent_of_contains _ _ _ hc]; exact hr q'
    · rcases eq_or_ne q' nq.query_name with h | h
      · subst h
        simp [lookupD, lookupKey_insertIfAbsent_self _ _ _
          (by simpa using hc)]
      · have := hr q'
        simpa [lookupD, lookupKey_insertIfAbsent_ne _ _ _ _ h] using this

theorem containsKey_seedQueryNames (qs : List NamedQuery) (q : String) :
    ∀ r : List (String × List DocKey),
    (containsKey (seedQueryNames qs r) q = true ↔
      (∃ nq ∈ qs, nq.query_name = q) ∨ containsKey r q = true) := by
  induction qs with
  | nil => intro r; simp [seedQueryNames]
  | cons nq rest ih =>
    intro r
    simp only [seedQueryNames, List.foldl_cons] at ih ⊢
    rw [ih, containsKey_insertIfAbsent]
    simp only [Bool.or_eq_true, decide_eq_true_eq]
    constructor
    · rintro (⟨nq', hm, he⟩ | (h | h))
      · exact Or.inl ⟨nq', List.mem_cons_of_mem _ hm, he⟩
      · exact Or.inl ⟨nq, List.mem_cons_self _ _, h.symm⟩
      · exact Or.inr h
    · rintro (⟨nq', hm, he⟩ | h)
      · rcases List.mem_cons.mp hm with rfl | hm'
        · exact Or.inr (Or.inl he.symm)
        · exact Or.inl ⟨nq', hm', he⟩
      · exact Or.inr (Or.inr h)

/-! ## Concrete values used by witnesses and counterexamples -/

/-- A small bundle descriptor: one declared document, ten declared bytes. -/
def mdW : BundleMetadata :=
  { bundle_id := "b", total_documents := 1, total_bytes := 10 }

/-- A persistence callback that returns the accumulated documents as the
changed-document map. -/
def cbId : List (DocKey × MaybeDocument) → String → MaybeDocumentMap :=
  fun docs _ => docs

/-- First metadata received for key `A`. -/
def metaFirst : BundledDocumentMetadata :=
  { key := "A", read_time := 5, doc_exists := false, queries := ["q1"] }

/-- Second metadata received for key `A`, differing from the first. -/
def metaSecond : BundledDocumentMetadata :=
  { key := "A", read_time := 9, doc_exists := false, queries := ["q2"] }

/-- A loader whose pending-metadata marker holds key `A`. -/
def lW2 : BundleLoader :=
  { BundleLoader.init mdW with current_document := some "A" }

/-- A loader whose metadata index already holds an entry for key `A`. -/
def lMetaShared : BundleLoader :=
  { BundleLoader.init mdW with documents_metadata := [("A", metaFirst)] }

/-! ## Claims -/

/-- C9: `AddElement`'s fatal assertion fires exactly on a `Metadata`-kind
element: for every element of any other kind the assertion branch is not
taken, and a `Metadata`-kind element triggers the assertion rather than
a recoverable error result. -/
theorem addElement_assert_iff_metadata (l : BundleLoader) (e : BundleElement)
    (b : Nat) :
    (AddElement l e b).1 = .fatalAssertion "Unexpected bundle metadata element." ↔
      e.elementType = .Metadata := by
  constructor
  · intro h
    rcases AddElement_cases l e b with ⟨hk, _⟩ | ⟨c, s, he⟩ | ⟨_, l₁, he, _⟩
    · exact hk
    · rw [he] at h
      exact absurd h (by simp)
    · rw [he] at h
      obtain ⟨p, hp⟩ := finishAdd_fst_isOk l₁ l.documents.length b
      rw [hp] at h
      exact absurd h (by simp)
  · intro h
    cases e with
    | metadata => rfl
    | namedQuery q => simp [BundleElement.elementType] at h
    | documentMetadata m => simp [BundleElement.elementType] at h
    | document d => simp [BundleElement.elementType] at h

/-- C2: a `Document` element is rejected with an invalid-argument error,
and the whole loader state (in particular the accumulated-documents map)
is left unchanged, whenever the pending-metadata marker is empty or
holds a different key; when the marker holds exactly the document's key,
the document content is inserted under that key and the marker is
cleared. -/
theorem addElement_document_guard (l : BundleLoader) (d : BundleDocument)
    (b : Nat) :
    (l.current_document ≠ some d.key →
      AddElement l (.document d) b =
        (.error .InvalidArgument
          "The document being added does not match the stored metadata.", l)) ∧
    (l.current_document = some d.key →
      (AddElement l (.document d) b).2.documents =
          insertOverwrite l.documents d.key (.document d.document) ∧
      lookupKey (AddElement l (.document d) b).2.documents d.key =
          some (.document d.document) ∧
      (AddElement l (.document d) b).2.current_document = none) := by
  refine ⟨AddElement_document_mismatch l d b, ?_⟩
  intro h
  rw [AddElement_document_match l d b h, finishAdd_snd]
  exact ⟨rfl, by simp [lookupKey_insertOverwrite], rfl⟩

/-- Witness for C2: a stray document with no pending metadata is
rejected with the state unchanged; a matching one is inserted. -/
theorem addElement_document_guard_witness :
    (AddElement (BundleLoader.init mdW) (.document ⟨"A", 7⟩) 2 =
      (.error .InvalidArgument
        "The document being added does not match the stored metadata.",
       BundleLoader.init mdW)) ∧
    ((AddElement lW2 (.document ⟨"A", 7⟩) 2).2.documents =
        insertOverwrite lW2.documents "A" (.document 7)) := by
  constructor
  · exact (addElement_document_guard (BundleLoader.init mdW) ⟨"A", 7⟩ 2).1
      (by decide)
  · exact ((addElement_document_guard lW2 ⟨"A", 7⟩ 2).2 rfl).1

/-- C7: a `DocumentMetadata` element with existence flag `false`
immediately inserts a tombstone (key, read time, no committed mutations)
into the accumulated-documents map, leaves the pending-metadata marker
empty, and succeeds. -/
theorem addElement_tombstone (l : BundleLoader) (m : BundledDocumentMetadata)
    (b : Nat) (h : m.doc_exists = false) :
    (AddElement l (.documentMetadata m) b).2.documents =
        insertOverwrite l.documents m.key (.noDocument m.key m.read_time false) ∧
    lookupKey (AddElement l (.documentMetadata m) b).2.documents m.key =
        some (.noDocument m.key m.read_time false) ∧
    (AddElement l (.documentMetadata m) b).2.current_document = none ∧
    (∃ p, (AddElement l (.documentMetadata m) b).1 = .ok p) := by
  have hs : (AddElement l (.documentMetadata m) b).2 =
      { l with current_document := none,
               documents_metadata := insertIfAbsent l.documents_metadata m.key m,
               documents := insertOverwrite l.documents m.key
                 (.noDocument m.key m.read_time false),
               bytes_loaded := (l.bytes_loaded + b) % UINT64_MOD } := by
    rw [AddElement_documentMetadata_snd, h]
    simp
  rw [hs]
  refine ⟨rfl, by simp [lookupKey_insertOverwrite], rfl, ?_⟩
  have he : AddElement l (.documentMetadata m) b =
      finishAdd { l with
        current_document := none,
        documents_metadata := insertIfAbsent l.documents_metadata m.key m,
        documents := insertOverwrite l.documents m.key
          (.noDocument m.key m.read_time false) } l.documents.length b := by
    simp [AddElement, h]
  rw [he]
  exact finishAdd_fst_isOk _ _ _

/-- Witness for C7: a deleted-document metadata element for key `A`
produces a tombstone at `A` and leaves no pending marker. -/
theorem addElement_tombstone_witness :
    lookupKey (AddElement (BundleLoader.init mdW)
        (.documentMetadata metaFirst) 1).2.documents "A" =
      some (.noDocument "A" 5 false) ∧
    (AddElement (BundleLoader.init mdW)
        (.documentMetadata metaFirst) 1).2.current_document = none := by
  have h := addElement_tombstone (BundleLoader.init mdW) metaFirst 1 rfl
  exact ⟨h.2.1, h.2.2.1⟩

/-- C3 counterexample: feeding two `DocumentMetadata` elements for the
same key `A`, the index afterwards still maps `A` to the first-received
metadata, not to the later-received one — the claim that later metadata
overwrites the prior entry is false on this input. -/
theorem later_metadata_overwrites_cex :
    lookupKey
      (AddElement
        (AddElement (BundleLoader.init mdW) (.documentMetadata metaFirst) 1).2
        (.documentMetadata metaSecond) 1).2.documents_metadata "A" =
      some metaFirst ∧
    lookupKey
      (AddElement
        (AddElement (BundleLoader.init mdW) (.documentMetadata metaFirst) 1).2
        (.documentMetadata metaSecond) 1).2.documents_metadata "A" ≠
      some metaSecond := by
  exact ⟨rfl, by decide⟩

/-- C3 (amended): `documents_metadata_.insert` keeps an existing entry:
when the key is already present the index is unchanged and the new
metadata is discarded; only when the key is absent is the new metadata
recorded — earlier metadata for a key wins. -/
theorem addElement_metadata_first_wins (l : BundleLoader)
    (m : BundledDocumentMetadata) (b : Nat) :
    (AddElement l (.documentMetadata m) b).2.documents_metadata =
      insertIfAbsent l.documents_metadata m.key m ∧
    (containsKey l.documents_metadata m.key = true →
      (AddElement l (.documentMetadata m) b).2.documents_metadata =
        l.documents_metadata) ∧
    (containsKey l.documents_metadata m.key = false →
      lookupKey (AddElement l (.documentMetadata m) b).2.documents_metadata
        m.key = some m) := by
  have h2 : (AddElement l (.documentMetadata m) b).2.documents_metadata =
      insertIfAbsent l.documents_metadata m.key m := by
    rw [AddElement_documentMetadata_snd]
    split <;> rfl
  refine ⟨h2, ?_, ?_⟩
  · intro hc
    rw [h2]
    exact insertIfAbsent_of_contains _ _ _ hc
  · intro hc
    rw [h2]
    exact lookupKey_insertIfAbsent_self _ _ _ hc

/-- Witness for the amended C3: with `A` already indexed, a second
metadata for `A` leaves the index unchanged; on a fresh loader the
metadata is recorded. -/
theorem addElement_metadata_first_wins_witness :
    ((AddElement lMetaShared (.documentMetadata metaSecond) 1).2.documents_metadata =
      lMetaShared.documents_metadata) ∧
    lookupKey (AddElement (BundleLoader.init mdW)
        (.documentMetadata metaFirst) 1).2.documents_metadata metaFirst.key =
      some metaFirst := by
  constructor
  · exact (addElement_metadata_first_wins lMetaShared metaSecond 1).2.1 (by decide)
  · exact (addElement_metadata_first_wins (BundleLoader.init mdW) metaFirst 1).2.2
      (by decide)

/-- C5: `AddElement` returns a progress snapshot exactly when the
accumulated-documents map grew on that call; the snapshot reports the
new document count, the declared totals, the updated byte counter and
the running state; a `NamedQuery` element always returns no progress. -/
theorem addElement_progress_iff (l : BundleLoader) (e : BundleElement) (b : Nat) :
    ((∃ pr, (AddElement l e b).1 = .ok (some pr)) ↔
       l.documents.length < (AddElement l e b).2.documents.length) ∧
    (∀ pr, (AddElement l e b).1 = .ok (some pr) →
       pr = { documents_loaded := (AddElement l e b).2.documents.length,
              total_documents := l.metadata.total_documents,
              bytes_loaded := (AddElement l e b).2.bytes_loaded,
              total_bytes := l.metadata.total_bytes,
              state := .Running }) ∧
    (∀ q, e = .namedQuery q → (AddElement l e b).1 = .ok none) := by
  refine ⟨?_, ?_, ?_⟩
  · rcases AddElement_cases l e b with ⟨_, he⟩ | ⟨c, s, he⟩ | ⟨_, l₁, he, _, _, hd⟩
    · rw [he]
      simp
    · rw [he]
      simp
    · rw [he, finishAdd_fst, finishAdd_snd]
      by_cases hlen : l.documents.length = l₁.documents.length
      · rw [if_pos hlen]
        refine iff_of_false ?_ ?_
        · rintro ⟨pr, hpr⟩
          exact absurd hpr (by simp)
        · show ¬ l.documents.length < l₁.documents.length
          omega
      · rw [if_neg hlen]
        have hlt : l.documents.length < l₁.documents.length := by
          rcases hd with hsame | ⟨k, v, hio⟩
          · exact absurd (by rw [hsame]) hlen
          · by_cases hck : containsKey l.documents k
            · rw [hio, length_insertOverwrite, if_pos hck] at hlen
              exact absurd rfl hlen
            · rw [hio, length_insertOverwrite, if_neg hck]
              omega
        exact iff_of_true ⟨_, rfl⟩ hlt
  · intro pr hpr
    rcases AddElement_cases l e b with ⟨_, he⟩ | ⟨c, s, he⟩ | ⟨_, l₁, he, _, hm, _⟩
    · rw [he] at hpr
      simp at hpr
    · rw [he] at hpr
      simp at hpr
    · rw [he, finishAdd_fst] at hpr
      rw [he, finishAdd_snd]
      by_cases hlen : l.documents.length = l₁.documents.length
      · rw [if_pos hlen] at hpr
        simp at hpr
      · rw [if_neg hlen] at hpr
        simp only [AddElementResult.ok.injEq, Option.some.injEq] at hpr
        subst hpr
        rw [hm]
  · intro q hq
    subst hq
    rw [AddElement_namedQuery_eq]

/-- Witness for C5: a matching document insertion yields a progress
snapshot with the expected contents; a named query yields none. -/
theorem addElement_progress_iff_witness :
    (∃ pr, (AddElement lW2 (.document ⟨"A", 7⟩) 2).1 = .ok (some pr)) ∧
    ({ documents_loaded := 1, total_documents := 1, bytes_loaded := 2,
       total_bytes := 10, state := .Running } : LoadBundleTaskProgress) =
      { documents_loaded := (AddElement lW2 (.document ⟨"A", 7⟩) 2).2.documents.length,
        total_documents := lW2.metadata.total_documents,
        bytes_loaded := (AddElement lW2 (.document ⟨"A", 7⟩) 2).2.bytes_loaded,
        total_bytes := lW2.metadata.total_bytes,
        state := .Running } ∧
    (AddElement lW2 (.namedQuery ⟨"q1", 0⟩) 2).1 = .ok none := by
  refine ⟨?_, ?_, ?_⟩
  · exact (addElement_progress_iff lW2 (.document ⟨"A", 7⟩) 2).1.mpr (by decide)
  · exact (addElement_progress_iff lW2 (.document ⟨"A", 7⟩) 2).2.1 _ (by decide)
  · exact (addElement_progress_iff lW2 (.namedQuery ⟨"q1", 0⟩) 2).2.2 ⟨"q1", 0⟩ rfl

/-- C1: `ApplyChanges` fails with an invalid-argument error when the
pending-metadata marker is still set, and when the accumulated count
differs from the declared total; in both cases the callback trace is
empty — no persistence call is issued. -/
theorem applyChanges_invalid_no_callbacks
    (cb : List (DocKey × MaybeDocument) → String → MaybeDocumentMap)
    (l : BundleLoader) :
    (l.current_document ≠ none →
      ApplyChanges cb l =
        (.error (.InvalidArgument,
          "Bundled documents end with a document metadata element instead of a document."),
         [])) ∧
    (l.current_document = none →
      l.metadata.total_documents ≠ l.documents.length →
      ApplyChanges cb l =
        (.error (.InvalidArgument,
          "Loaded documents count is not the same as in metadata."), [])) := by
  constructor
  · intro h
    simp [ApplyChanges, h]
  · intro h1 h2
    simp [ApplyChanges, h1, h2]

/-- Witness for C1: a pending marker and a count mismatch each produce
the invalid-argument failure with an empty callback trace. -/
theorem applyChanges_invalid_no_callbacks_witness :
    ApplyChanges cbId lW2 =
      (.error (.InvalidArgument,
        "Bundled documents end with a document metadata element instead of a document."),
       []) ∧
    ApplyChanges cbId (BundleLoader.init mdW) =
      (.error (.InvalidArgument,
        "Loaded documents count is not the same as in metadata."), []) := by
  constructor
  · exact (applyChanges_invalid_no_callbacks cbId lW2).1 (by decide)
  · exact (applyChanges_invalid_no_callbacks cbId (BundleLoader.init mdW)).2 rfl
      (by decide)

/-- C8: on success `ApplyChanges` calls `ApplyBundledDocuments` with
the accumulated documents and the bundle id first, then `SaveNamedQuery`
once per named query in receipt order with the query's resolved key set,
then `SaveBundle` with the bundle metadata, and it returns the
changed-document map produced by `ApplyBundledDocuments` unmodified. -/
theorem applyChanges_success_order
    (cb : List (DocKey × MaybeDocument) → String → MaybeDocumentMap)
    (l : BundleLoader) (h1 : l.current_document = none)
    (h2 : l.metadata.total_documents = l.documents.length) :
    ApplyChanges cb l =
      (.ok (cb l.documents l.metadata.bundle_id),
       CallbackCall.applyBundledDocuments l.documents l.metadata.bundle_id ::
         (l.queries.map fun named_query =>
            CallbackCall.saveNamedQuery named_query
              (lookupD (GetQueryDocumentMapping l) named_query.query_name [])) ++
         [CallbackCall.saveBundle l.metadata]) := by
  simp [ApplyChanges, h1, h2]

/-- A fully loaded loader: one document, one named query, count matching
the declared total. -/
def lW8 : BundleLoader :=
  { metadata := mdW, queries := [⟨"q1", 0⟩],
    documents_metadata := [("A", ⟨"A", 5, true, ["q1"]⟩)],
    documents := [("A", .document 7)],
    current_document := none, bytes_loaded := 9 }

/-- Witness for C8: the success trace on a concrete loaded bundle. -/
theorem applyChanges_success_order_witness :
    ApplyChanges cbId lW8 =
      (.ok [("A", .document 7)],
       [.applyBundledDocuments [("A", .document 7)] "b",
        .saveNamedQuery ⟨"q1", 0⟩ ["A"],
        .saveBundle mdW]) := by
  rw [applyChanges_success_order cbId lW8 rfl (by decide)]
  rfl

/-- C4: every successfully handled element adds its byte size to the
running counter (modulo the `uint64_t` width), so feeding elements with
byte sizes `b1..bn` yields a total equal to their sum whenever the sum
fits in 64 bits, independently of the order in which the elements are
fed. -/
theorem bytes_counter_additive (l : BundleLoader)
    (es : List (BundleElement × Nat)) (l' : BundleLoader)
    (h : AddAll l es = some l') (hb : l.bytes_loaded < UINT64_MOD) :
    l'.bytes_loaded = (l.bytes_loaded + (es.map Prod.snd).sum) % UINT64_MOD ∧
    (l.bytes_loaded + (es.map Prod.snd).sum < UINT64_MOD →
      l'.bytes_loaded = l.bytes_loaded + (es.map Prod.snd).sum) ∧
    (∀ es₂ l₂, AddAll l es₂ = some l₂ →
      (es.map Prod.snd).Perm (es₂.map Prod.snd) →
      l₂.bytes_loaded = l'.bytes_loaded) := by
  have h1 := AddAll_bytes es l l' h hb
  refine ⟨h1, ?_, ?_⟩
  · intro hfit
    rw [h1, Nat.mod_eq_of_lt hfit]
  · intro es₂ l₂ h₂ hperm
    have h3 := AddAll_bytes es₂ l l₂ h₂ hb
    rw [h1, h3, hperm.sum_eq]

/-- Elements with byte sizes 3 and 4, and the same pair reversed. -/
def wEl : List (BundleElement × Nat) :=
  [(.namedQuery ⟨"q1", 0⟩, 3), (.documentMetadata metaFirst, 4)]

/-- The reversed feeding order of `wEl`. -/
def wEl2 : List (BundleElement × Nat) :=
  [(.documentMetadata metaFirst, 4), (.namedQuery ⟨"q1", 0⟩, 3)]

/-- The loader state after feeding `wEl` (or `wEl2`) to a fresh loader. -/
def wFinal : BundleLoader :=
  { metadata := mdW, queries := [⟨"q1", 0⟩],
    documents_metadata := [("A", metaFirst)],
    documents := [("A", .noDocument "A" 5 false)],
    current_document := none, bytes_loaded := 7 }

/-- Witness for C4: loading byte sizes 3 and 4 yields total 7, in
either order. -/
theorem bytes_counter_additive_witness :
    (wFinal.bytes_loaded =
      (BundleLoader.init mdW).bytes_loaded + (wEl.map Prod.snd).sum) ∧
    wFinal.bytes_loaded = wFinal.bytes_loaded := by
  constructor
  · exact (bytes_counter_additive (BundleLoader.init mdW) wEl wFinal rfl
      (by decide)).2.1 (by decide)
  · exact (bytes_counter_additive (BundleLoader.init mdW) wEl wFinal rfl
      (by decide)).2.2 wEl2 wFinal rfl (by decide)

/-- C6: the query–document mapping has a key for every received named
query name and for every query name listed by some indexed document
metadata; and the key set stored under any name `q` consists of exactly
the keys of the indexed metadata entries that list `q` (so a received
query listed by no document maps to the empty set). -/
theorem queryDocumentMapping_spec (l : BundleLoader) (q : String) :
    (((∃ nq ∈ l.queries, nq.query_name = q) ∨
        (∃ p ∈ l.documents_metadata, q ∈ p.2.queries)) →
      containsKey (GetQueryDocumentMapping l) q = true) ∧
    (∀ a : DocKey,
      a ∈ lookupD (GetQueryDocumentMapping l) q [] ↔
        ∃ p ∈ l.documents_metadata, q ∈ p.2.queries ∧ a = p.2.key) := by
  constructor
  · intro h
    simp only [GetQueryDocumentMapping]
    rw [containsKey_foldl_meta]
    rcases h with hq | hm
    · exact Or.inl ((containsKey_seedQueryNames l.queries q []).mpr (Or.inl hq))
    · exact Or.inr hm
  · intro a
    simp only [GetQueryDocumentMapping]
    rw [mem_lookupD_foldl_meta,
      lookupD_seedQueryNames l.queries q [] (fun q' => rfl)]
    simp

/-- A loader with two received queries and one metadata entry that lists
one received query name and one name never received as a query. -/
def lW6 : BundleLoader :=
  { metadata := mdW, queries := [⟨"q1", 0⟩, ⟨"q2", 0⟩],
    documents_metadata := [("A", ⟨"A", 5, true, ["q1", "q3"]⟩)],
    documents := [], current_document := none, bytes_loaded := 0 }

/-- Witness for C6: a received query with no matching document appears
as a key, and so does a name listed only in document metadata. -/
theorem queryDocumentMapping_spec_witness :
    containsKey (GetQueryDocumentMapping lW6) "q2" = true ∧
    containsKey (GetQueryDocumentMapping lW6) "q3" = true := by
  constructor
  · exact (queryDocumentMapping_spec lW6 "q2").1 (Or.inl (by decide))
  · exact (queryDocumentMapping_spec lW6 "q3").1 (Or.inr (by decide))

/-- Existence-true metadata for key `A` with no following document. -/
def mAW : BundledDocumentMetadata :=
  { key := "A", read_time := 5, doc_exists := true, queries := [] }

/-- Existence-false metadata for key `B`. -/
def mBW : BundledDocumentMetadata :=
  { key := "B", read_time := 7, doc_exists := false, queries := [] }

/-- C10: an existence-true `DocumentMetadata` for `A` sets the pending
marker, a later `DocumentMetadata` (here existence-false for `B`)
overwrites and clears it, and `ApplyChanges` then succeeds although no
`Document` element for `A` was ever fed — the sequence contains no
`Document` element at all, yet the declared total (one) matches the one
accumulated tombstone. -/
theorem pending_metadata_dropped_scenario :
    (AddElement (BundleLoader.init mdW) (.documentMetadata mAW) 3).2.current_document =
      some "A" ∧
    (AddElement
        (AddElement (BundleLoader.init mdW) (.documentMetadata mAW) 3).2
        (.documentMetadata mBW) 4).2.current_document = none ∧
    (ApplyChanges cbId
        (AddElement
          (AddElement (BundleLoader.init mdW) (.documentMetadata mAW) 3).2
          (.documentMetadata mBW) 4).2).1 =
      .ok [("B", .noDocument "B" 7 false)] := by
  exact ⟨rfl, rfl, rfl⟩

end BundleSpec
